import Mathlib

/-!
Verification of the DropTea peer-to-peer file-transfer engine core.

Shallow embedding of the Rust sources under src/src/core (transfer.rs,
utils.rs, security.rs, handlers.rs, discovery.rs, engine.rs) as pure Lean
functions, together with theorems settling the specification claims.

Machine integers are modelled as Nat with explicit bounds (a u8 is a Nat
below 256, a u64 a Nat below 2 ^ 64); byte buffers are lists of Nat;
the file system at one instant is a predicate on path strings; fallible
Rust functions return Option or Except.
-/

namespace DropTea

/-! ### ACK frame (src/core/transfer.rs pack_ack, src/core/utils.rs unpack_ack) -/

/-- ACK_SIZE from transfer.rs / utils.rs: 9 bytes. -/
def ACK_SIZE : Nat := 9

/-- Little-endian byte encoding, w bytes, as produced by Rust u64::to_le_bytes
when w = 8. -/
def toLeBytes : Nat → Nat → List Nat
  | 0, _ => []
  | w + 1, n => n % 256 :: toLeBytes w (n / 256)

/-- Little-endian byte decoding, as performed by Rust u64::from_le_bytes. -/
def fromLeBytes : List Nat → Nat
  | [] => 0
  | b :: bs => b + 256 * fromLeBytes bs

/-- pack_ack from transfer.rs (identical to the copy in utils.rs): push the
status byte, then extend with the 8 little-endian bytes of the offset. -/
def pack_ack (status : Nat) (offset : Nat) : List Nat :=
  status :: toLeBytes 8 offset

/-- unpack_ack from utils.rs: error when fewer than ACK_SIZE bytes, else
return byte 0 as the status and bytes 1..9 decoded little-endian. -/
def unpack_ack (data : List Nat) : Option (Nat × Nat) :=
  if data.length < ACK_SIZE then none
  else some (data.headD 0, fromLeBytes ((data.drop 1).take 8))

/-! ### Functional maps and file-system snapshots

HashMap String V is modelled as a function String to Option V; the file
system at one instant is a predicate on path strings. -/

abbrev StrMap (α : Type) := String → Option α

def mapInsert {α : Type} (m : StrMap α) (k : String) (v : α) : StrMap α :=
  fun k' => if k' = k then some v else m k'

def mapRemove {α : Type} (m : StrMap α) (k : String) : StrMap α :=
  fun k' => if k' = k then none else m k'

def emptyMap {α : Type} : StrMap α := fun _ => none

abbrev FsState := String → Bool

def fsCreate (fs : FsState) (p : String) : FsState :=
  fun q => if q = p then true else fs q

def fsRemove (fs : FsState) (p : String) : FsState :=
  fun q => if q = p then false else fs q

/-- tokio fs rename: the source entry disappears and the destination entry
appears (overwriting any previous one). -/
def fsRename (fs : FsState) (src dst : String) : FsState :=
  fsCreate (fsRemove fs src) dst

/-! ### Pending-acceptance map and resolve_request (src/core/engine.rs) -/

/-- UserResponse from notification.rs. The payload of the Error variant
(a WinToastError) plays no role in the claims and is dropped. -/
inductive UserResponse where
  | Accept
  | Decline
  | Dismissed
  | Error
deriving DecidableEq

/-- pending_transfers from engine.rs: task_id to the UnboundedSender of the
per-task single-use channel; sender handles are abstracted as Nat. -/
abbrev PendingMap := StrMap Nat

/-- DropTeaCore::resolve_request from engine.rs: remove the pending entry
for task_id; when one was present, send Accept or Decline on its channel.
Returns the new map and the message sent (channel handle and response),
none when nothing was sent. -/
def resolve_request (m : PendingMap) (task_id : String) (accept : Bool) :
    PendingMap × Option (Nat × UserResponse) :=
  match m task_id with
  | some tx =>
      (mapRemove m task_id,
       some (tx, if accept then UserResponse.Accept else UserResponse.Decline))
  | none => (m, none)

/-! ### TOFU verification (src/core/security.rs) -/

inductive CertificateAction where
  | Accept
  | Reject
deriving DecidableEq

/-- The four distinct rustls General error messages produced by
TofuVerifier::check_cert, as an enumeration:
rejectedByUser is "Rejected by user" (first use, callback rejects);
certRejectedByUser is "Certificate rejected by user" (mismatch, callback
rejects); fingerprintMismatch is "Fingerprint mismatch (MITM protection)"
(mismatch, no callback); callbackFailed is "Callback failed: ...". -/
inductive TofuError where
  | rejectedByUser
  | certRejectedByUser
  | fingerprintMismatch
  | callbackFailed
deriving DecidableEq

/-- known_hosts from security.rs: peer_id to fingerprint. -/
abbrev KnownHosts := StrMap String

/-- SecurityManager::save_known_host: under the write lock, skip when the
stored fingerprint already equals the new one, otherwise insert and persist. -/
def save_known_host (m : KnownHosts) (peer_id fingerprint : String) : KnownHosts :=
  match m peer_id with
  | some existing => if existing = fingerprint then m else mapInsert m peer_id fingerprint
  | none => mapInsert m peer_id fingerprint

/-- TransferCallback::ask_verify_certificate: peer_id and fingerprint to an
action, or an error (anyhow::Result is modelled as Except Unit). -/
abbrev VerifyCallback := String → String → Except Unit CertificateAction

/-- TofuVerifier state: the known-hosts store of its SecurityManager and the
optional arbitration callback. The filename field only decorates the
callback prompt and is dropped. -/
structure TofuVerifier where
  known : KnownHosts
  callback : Option VerifyCallback

/-- TofuVerifier::check_cert from security.rs, after fingerprint computation
(blake3 of the DER bytes) and peer-id extraction and trim, both of which are
abstracted into the peer_id and fingerprint arguments. Returns the updated
known-hosts store on acceptance, or the error. -/
def check_cert (v : TofuVerifier) (peer_id fingerprint : String) :
    Except TofuError KnownHosts :=
  match v.known peer_id with
  | some known =>
      if known = fingerprint then
        Except.ok v.known
      else
        match v.callback with
        | some cb =>
            match cb peer_id fingerprint with
            | Except.ok CertificateAction.Accept =>
                Except.ok (save_known_host v.known peer_id fingerprint)
            | Except.ok CertificateAction.Reject =>
                Except.error TofuError.certRejectedByUser
            | Except.error _ => Except.error TofuError.callbackFailed
        | none => Except.error TofuError.fingerprintMismatch
  | none =>
      match v.callback with
      | some cb =>
          match cb peer_id fingerprint with
          | Except.ok CertificateAction.Accept =>
              Except.ok (save_known_host v.known peer_id fingerprint)
          | Except.ok CertificateAction.Reject =>
              Except.error TofuError.rejectedByUser
          | Except.error _ => Except.error TofuError.callbackFailed
      | none => Except.ok (save_known_host v.known peer_id fingerprint)

/-! ### Whitelist (src/core/security.rs) -/

/-- The whitelist store: a set of trusted sender names. -/
abbrev Whitelist := String → Bool

/-- SecurityManager::add_trust: insert the sender name unless already
present (persisting to disk is a side effect outside the store model). -/
def add_trust (wl : Whitelist) (sender_name : String) : Whitelist :=
  if wl sender_name then wl
  else fun s => if s = sender_name then true else wl s

/-- SecurityManager::is_trusted: membership in the whitelist store. -/
def is_trusted (wl : Whitelist) (sender_name : String) : Bool :=
  wl sender_name

/-! ### Unique-path policy (src/core/utils.rs get_unique_path) -/

/-- Index of the last occurrence of a character in a character list. -/
def lastIdxOf (c : Char) : List Char → Option Nat
  | [] => none
  | x :: xs =>
      match lastIdxOf c xs with
      | some i => some (i + 1)
      | none => if x = c then some 0 else none

/-- Split a character list at every occurrence of the separator (the
behaviour of Rust str::split on a single-character pattern). -/
def splitOnChar (sep : Char) : List Char → List String
  | [] => [""]
  | c :: cs =>
      let rest := splitOnChar sep cs
      if c = sep then "" :: rest
      else
        match rest with
        | [] => [String.mk [c]]
        | r :: rs => String.mk (c :: r.data) :: rs

/-- Rust Path::file_name on a path string with forward-slash separators:
component parsing drops empty and CurDir components, and the final
component is returned only when it is a normal name (not ParentDir). -/
def rustFileName (raw : String) : Option String :=
  let comps := (splitOnChar '/' raw.data).filter fun c => c != "" && c != "."
  match comps.getLast? with
  | none => none
  | some c => if c = ".." then none else some c

/-- The sanitisation step of get_unique_path:
Path::new(raw).file_name() with fallback "unknown_file". -/
def sanitizeFileName (raw : String) : String :=
  match rustFileName raw with
  | some n => n
  | none => "unknown_file"

/-- Rust Path::file_stem and Path::extension on a bare file name, returning
the stem and the extension already formatted with its leading dot (the
format of the ext variable in get_unique_path): the name splits at the last
dot unless that dot is the leading character or there is none. -/
def splitStemExt (name : String) : String × String :=
  match lastIdxOf '.' name.data with
  | some i =>
      if i = 0 then (name, "")
      else (String.mk (name.data.take i), String.mk ('.' :: name.data.drop (i + 1)))
  | none => (name, "")

/-- Path::new(dir).join(name) for a bare file name. -/
def pathJoin (dir name : String) : String :=
  dir ++ "/" ++ name

/-- get_unique_path from utils.rs. The file system at the moment of the
call is the predicate ex (Path::exists); nanos is the nanosecond timestamp
SystemTime::now would yield in the final fallback. -/
def get_unique_path (ex : FsState) (dir raw_filename : String) (nanos : Nat) : String :=
  let safe := sanitizeFileName raw_filename
  let base := pathJoin dir safe
  if ex base = false then base
  else
    let se := splitStemExt safe
    let trySimple := pathJoin dir (se.1 ++ "_1" ++ se.2)
    if ex trySimple = false then trySimple
    else pathJoin dir (se.1 ++ "_" ++ toString nanos ++ se.2)

/-- Rust Path::with_extension: replace the extension of the final path
component (or append one when the component has none). Used by
handle_incoming to derive the .part path from the final path. -/
def withExtension (p newExt : String) : String :=
  match lastIdxOf '/' p.data with
  | some i =>
      let dir : String := String.mk (p.data.take i)
      let name : String := String.mk (p.data.drop (i + 1))
      dir ++ "/" ++ (splitStemExt name).1 ++ "." ++ newExt
  | none => (splitStemExt p).1 ++ "." ++ newExt

/-! ### File header, host events and the inbound transfer
(src/core/transfer.rs, src/core/handlers.rs, src/core/engine.rs) -/

/-- FileHeader from transfer.rs. -/
structure FileHeader where
  filename : String
  filesize : Nat
  sender_name : String
  sender_device : String
  compression : Option String
deriving DecidableEq

/-- Events delivered to the host through the TransferCallback methods of
the EventHandlerAdapter in engine.rs. The incoming constructor is the
Incoming event the adapter emits from ask_accept_file (its formatted
payload string is kept as fields). -/
inductive HostEvent where
  | onStart (task_id filename : String)
  | onProgress (task_id : String) (current total : Nat)
  | onComplete (task_id info : String)
  | onError (task_id error : String)
  | onReject (task_id reason : String)
  | incoming (task_id filename : String) (filesize : Nat) (sender_name sender_device : String)
  | onPeerFound (id name ip : String) (port : Nat) (ssid : Option String) (transport : String)
  | onPeerLost (id : String)
deriving DecidableEq

/-- The task id carried by a transfer event (none for peer events). -/
def HostEvent.taskId : HostEvent → Option String
  | HostEvent.onStart t _ => some t
  | HostEvent.onProgress t _ _ => some t
  | HostEvent.onComplete t _ => some t
  | HostEvent.onError t _ => some t
  | HostEvent.onReject t _ => some t
  | HostEvent.incoming t _ _ _ _ => some t
  | HostEvent.onPeerFound _ _ _ _ _ _ => none
  | HostEvent.onPeerLost _ => none

/-- External outcomes of one handle_incoming run, resolving its awaits and
fallible I/O steps: whether limiter.try_acquire succeeded, what (if
anything) arrived on the per-task channel within USER_DECISION_TIMEOUT,
the nanosecond timestamp for get_unique_path, whether opening the .part
file succeeded, the (current, total) reports issued by copy_pipeline, and
the success of the pipeline and of each commit step. -/
structure IncomingEnv where
  permitOk : Bool
  decision : Option UserResponse
  nanos : Nat
  openOk : Bool
  progress : List (Nat × Nat)
  pipelineOk : Bool
  flushOk : Bool
  syncOk : Bool
  renameOk : Bool

/-- Observable result of one handle_incoming run: the task id it used, the
host events it emitted in order, the ACK frames it wrote as (status,
offset) pairs, the final whitelist store and file system, the keys it
inserted into the pending-acceptance map, and whether it returned Ok. -/
structure IncomingResult where
  taskId : String
  events : List HostEvent
  acks : List (Nat × Nat)
  whitelist : Whitelist
  fs : FsState
  insertedKeys : List String
  ok : Bool

/-- Steps 5 to 7 of handle_incoming from handlers.rs, entered once the
transfer is accepted: resolve the final path, derive the .part path with
with_extension, open it (create + truncate), send ACK(1,0), run the
decompressing pipeline, and on success flush, fsync and rename, emitting
on_complete; on pipeline failure delete the .part file and propagate; a
flush, fsync or rename failure propagates without the delete. -/
def acceptedBody (env : IncomingEnv) (saveDir : String) (header : FileHeader)
    (wl : Whitelist) (fs : FsState) (evs0 : List HostEvent)
    (inserted : List String) : IncomingResult :=
  let task_id := header.filename
  let finalPath := get_unique_path fs saveDir header.filename env.nanos
  let tempPath := withExtension finalPath "part"
  if env.openOk = false then
    { taskId := task_id, events := evs0, acks := [], whitelist := wl,
      fs := fs, insertedKeys := inserted, ok := false }
  else
    let fs1 := fsCreate fs tempPath
    let progressEvents := env.progress.map fun ct => HostEvent.onProgress task_id ct.1 ct.2
    let evs1 := evs0 ++ progressEvents
    if env.pipelineOk then
      if env.flushOk then
        if env.syncOk then
          if env.renameOk then
            { taskId := task_id,
              events := evs1 ++ [HostEvent.onComplete task_id finalPath],
              acks := [(1, 0)], whitelist := wl,
              fs := fsRename fs1 tempPath finalPath,
              insertedKeys := inserted, ok := true }
          else
            { taskId := task_id, events := evs1, acks := [(1, 0)],
              whitelist := wl, fs := fs1, insertedKeys := inserted, ok := false }
        else
          { taskId := task_id, events := evs1, acks := [(1, 0)],
            whitelist := wl, fs := fs1, insertedKeys := inserted, ok := false }
      else
        { taskId := task_id, events := evs1, acks := [(1, 0)],
          whitelist := wl, fs := fs1, insertedKeys := inserted, ok := false }
    else
      { taskId := task_id, events := evs1, acks := [(1, 0)],
        whitelist := wl, fs := fsRemove fs1 tempPath,
        insertedKeys := inserted, ok := false }

/-- handle_incoming from handlers.rs, from the point where the FileHeader
has been parsed (steps 3 to 7): task_id is the header's filename; on a
failed try_acquire send ACK(0,0) and reject with "System Busy"; a
whitelisted sender is auto-accepted with on_start; otherwise insert the
channel under task_id, emit the Incoming event, await the decision, remove
the entry, and on Accept add the sender to the whitelist; a declined or
timed-out request sends ACK(0,0) and rejects with "User Rejected";
acceptance continues in acceptedBody. -/
def handle_incoming (env : IncomingEnv) (saveDir : String) (header : FileHeader)
    (wl : Whitelist) (fs : FsState) : IncomingResult :=
  let task_id := header.filename
  if env.permitOk = false then
    { taskId := task_id, events := [HostEvent.onReject task_id "System Busy"],
      acks := [(0, 0)], whitelist := wl, fs := fs, insertedKeys := [], ok := true }
  else
    if is_trusted wl header.sender_name then
      acceptedBody env saveDir header wl fs
        [HostEvent.onStart task_id header.filename] []
    else
      let incomingEv := HostEvent.incoming task_id header.filename header.filesize
        header.sender_name header.sender_device
      if env.decision = some UserResponse.Accept then
        acceptedBody env saveDir header (add_trust wl header.sender_name) fs
          [incomingEv] [task_id]
      else
        { taskId := task_id,
          events := [incomingEv, HostEvent.onReject task_id "User Rejected"],
          acks := [(0, 0)], whitelist := wl, fs := fs,
          insertedKeys := [task_id], ok := true }

/-! ### Progress notification of copy_pipeline (src/core/transfer.rs) -/

/-- NOTIFY_INTERVAL_MS from transfer.rs. -/
def NOTIFY_INTERVAL_MS : Nat := 100

/-- Consumer-loop state of copy_pipeline: bytes written, bytes at the last
notification, tokio Instant of the last notification (milliseconds,
monotone clock), and the (current, time-of-call) pairs of the on_progress
calls so far, in order. -/
structure PipelineState where
  uploaded : Nat
  last_rep : Nat
  last_time : Nat
  reports : List (Nat × Nat)

/-- One iteration of the consumer loop of copy_pipeline on a received chunk
(its length and the Instant::now value after the write): add the length,
then call on_progress exactly when at least 1 MiB arrived since the last
report and strictly more than NOTIFY_INTERVAL_MS milliseconds elapsed
(tokio duration_since saturates at zero, as does Nat subtraction), or when
uploaded equals total. -/
def pipelineStep (total : Nat) (st : PipelineState) (chunk : Nat × Nat) :
    PipelineState :=
  if (1024 * 1024 ≤ st.uploaded + chunk.1 - st.last_rep ∧
      NOTIFY_INTERVAL_MS < chunk.2 - st.last_time) ∨
      st.uploaded + chunk.1 = total then
    { uploaded := st.uploaded + chunk.1, last_rep := st.uploaded + chunk.1,
      last_time := chunk.2,
      reports := st.reports ++ [(st.uploaded + chunk.1, chunk.2)] }
  else
    { st with uploaded := st.uploaded + chunk.1 }

/-- The on_progress call sequence of one copy_pipeline run whose producer
delivered the given chunks (length, write-completion time), starting at
time t0: current value and call time of each notification, in order. -/
def copy_pipeline_reports (total t0 : Nat) (chunks : List (Nat × Nat)) :
    List (Nat × Nat) :=
  (chunks.foldl (pipelineStep total) ⟨0, 0, t0, []⟩).reports

/-! ### Discovery peer table (src/core/discovery.rs) -/

inductive TransportType where
  | Lan
  | BleOnly
  | Hybrid
deriving DecidableEq

/-- ToString for TransportType from discovery.rs. -/
def TransportType.toStr : TransportType → String
  | TransportType.Lan => "LAN"
  | TransportType.BleOnly => "BLE"
  | TransportType.Hybrid => "HYBRID"

/-- PeerInfo from discovery.rs. IpAddr is abstracted as its string
rendering; Instant as a Nat timestamp. -/
structure PeerInfo where
  id : String
  name : String
  display_name : String
  ip : Option String
  port : Nat
  ssid : Option String
  ble_mac : Option String
  transport : TransportType
  last_seen : Nat
  missed_pings : Nat
deriving DecidableEq

/-- The known_peers DashMap. -/
abbrev PeerTable := StrMap PeerInfo

/-- The fresh record inserted by the or_insert_with arm of the MdnsFound
handler. -/
def freshLanPeer (id name ip : String) (port now : Nat) : PeerInfo :=
  { id := id, name := name, display_name := name, ip := some ip,
    port := port, ssid := none, ble_mac := none,
    transport := TransportType.Lan, last_seen := now, missed_pings := 0 }

/-- The fresh record inserted by the new-peer arm of the BleFound handler. -/
def freshBlePeer (id name : String) (ssid : Option String) (mac : String)
    (now : Nat) : PeerInfo :=
  { id := id, name := name, display_name := name, ip := none,
    port := 0, ssid := ssid, ble_mac := some mac,
    transport := TransportType.BleOnly, last_seen := now, missed_pings := 0 }

/-- The peer-table mutations of discovery.rs: the three
DiscoveryInternalEvent arms of the event loop in DiscoveryEngine::start
(mdnsFound carries an address that already parsed; an address that fails
to parse performs no mutation at all), plus the per-peer outcome a
health-probe task of run_health_check applies when its peer is still
present. -/
inductive TableMutation where
  | mdnsFound (id name ip : String) (port : Nat)
  | bleFound (id name : String) (ssid : Option String) (mac : String)
  | mdnsLost (id : String)
  | probeResult (id : String) (alive : Bool)

/-- Apply one mutation to the peer table at time now, returning the new
table and the host notifications emitted, following discovery.rs:
MdnsFound upserts (existing: set ip, port, refresh, reset missed_pings,
BleOnly becomes Hybrid and anything else becomes Lan, then notify with the
updated record; absent: notify and insert a fresh Lan record); BleFound on
an existing peer attaches ssid and mac, refreshes last_seen and upgrades
Lan to Hybrid without notifying, and inserts a fresh BleOnly record (with
notification) otherwise; MdnsLost downgrades a Hybrid peer to BleOnly
dropping its ip, and removes any other peer with on_peer_lost; a probe
success resets missed_pings and refreshes last_seen, a failure increments
missed_pings and at three or more drops a Hybrid peer to BleOnly (clearing
ip) or removes a Lan peer with on_peer_lost. -/
def applyMutation (tbl : PeerTable) (m : TableMutation) (now : Nat) :
    PeerTable × List HostEvent :=
  match m with
  | TableMutation.mdnsFound id name ip port =>
      match tbl id with
      | some peer =>
          let peer' : PeerInfo :=
            { peer with
              ip := some ip, port := port, last_seen := now, missed_pings := 0,
              transport :=
                if peer.transport = TransportType.BleOnly then TransportType.Hybrid
                else TransportType.Lan }
          (mapInsert tbl id peer',
           [HostEvent.onPeerFound id peer'.display_name ip port peer'.ssid
              peer'.transport.toStr])
      | none =>
          (mapInsert tbl id (freshLanPeer id name ip port now),
           [HostEvent.onPeerFound id name ip port none "LAN"])
  | TableMutation.bleFound id name ssid mac =>
      match tbl id with
      | some peer =>
          let peer' : PeerInfo :=
            { peer with
              ssid := ssid, ble_mac := some mac, last_seen := now,
              transport :=
                if peer.transport = TransportType.Lan then TransportType.Hybrid
                else peer.transport }
          (mapInsert tbl id peer', [])
      | none =>
          (mapInsert tbl id (freshBlePeer id name ssid mac now),
           [HostEvent.onPeerFound id name "" 0 ssid "BLE"])
  | TableMutation.mdnsLost id =>
      match tbl id with
      | some peer =>
          if peer.transport = TransportType.Hybrid then
            (mapInsert tbl id
              { peer with transport := TransportType.BleOnly, ip := none }, [])
          else
            (mapRemove tbl id, [HostEvent.onPeerLost id])
      | none => (tbl, [])
  | TableMutation.probeResult id alive =>
      match tbl id with
      | some peer =>
          if alive then
            (mapInsert tbl id { peer with last_seen := now, missed_pings := 0 }, [])
          else
            let peer' : PeerInfo := { peer with missed_pings := peer.missed_pings + 1 }
            if 3 ≤ peer'.missed_pings then
              if peer'.transport = TransportType.Hybrid then
                (mapInsert tbl id
                  { peer' with transport := TransportType.BleOnly, ip := none }, [])
              else if peer'.transport = TransportType.Lan then
                (mapRemove tbl id, [HostEvent.onPeerLost id])
              else
                (mapInsert tbl id peer', [])
            else
              (mapInsert tbl id peer', [])
      | none => (tbl, [])

/-- Fold a timed mutation sequence over the table. -/
def runMutations (tbl : PeerTable) (ms : List (TableMutation × Nat)) : PeerTable :=
  ms.foldl (fun t mn => (applyMutation t mn.1 mn.2).1) tbl

/-- The peer-record invariant of the specification. -/
def peerInv (p : PeerInfo) : Prop :=
  (p.transport = TransportType.BleOnly ↔ (p.ip = none ∧ p.ble_mac ≠ none)) ∧
  (p.transport = TransportType.Hybrid → (p.ip ≠ none ∧ p.ble_mac ≠ none))

/-- Strengthened, inductive form of the invariant: additionally a Lan peer
has an address. -/
def peerStrongInv (p : PeerInfo) : Prop :=
  peerInv p ∧ (p.transport = TransportType.Lan → p.ip ≠ none)

def tableInv (tbl : PeerTable) : Prop :=
  ∀ id p, tbl id = some p → peerInv p

def tableStrongInv (tbl : PeerTable) : Prop :=
  ∀ id p, tbl id = some p → peerStrongInv p

/-- The rate-limiting shape of an on_progress call sequence: each call,
relative to the previous one (anchor a = bytes and time of the previous
call), shows at least 1 MiB of progress and strictly more than
NOTIFY_INTERVAL_MS elapsed milliseconds, or is the terminal call with
current equal to total. -/
def chainFrom (total : Nat) : Nat × Nat → List (Nat × Nat) → Prop
  | _, [] => True
  | a, e :: rest =>
      ((1024 * 1024 ≤ e.1 - a.1 ∧ NOTIFY_INTERVAL_MS < e.2 - a.2) ∨ e.1 = total) ∧
      chainFrom total e rest

/-- Total plaintext bytes delivered by a chunk list. -/
def sumLens (chunks : List (Nat × Nat)) : Nat :=
  (chunks.map Prod.fst).sum

/-- Fold invariant for the consumer loop: the reports so far are correctly
spaced from the start anchor, and last_rep and last_time are the data of
the most recent report (or the start anchor when none was made). -/
def stInv (total t0 : Nat) (st : PipelineState) : Prop :=
  chainFrom total (0, t0) st.reports ∧
  st.reports.getLastD (0, t0) = (st.last_rep, st.last_time)

end DropTea

namespace DropTea

/-! ### Helper lemmas -/

theorem toLeBytes_length (w n : Nat) : (toLeBytes w n).length = w := by
  induction w generalizing n with
  | zero => rfl
  | succ w ih => simp [toLeBytes, ih]

theorem fromLeBytes_toLeBytes (w n : Nat) :
    fromLeBytes (toLeBytes w n) = n % 256 ^ w := by
  induction w generalizing n with
  | zero => simp [toLeBytes, fromLeBytes, Nat.mod_one]
  | succ w ih =>
    simp only [toLeBytes, fromLeBytes, ih]
    rw [pow_succ', Nat.mod_mul]

theorem mapInsert_self {α : Type} (m : StrMap α) (k : String) (v : α) :
    mapInsert m k v k = some v := by
  simp [mapInsert]

theorem mapInsert_other {α : Type} (m : StrMap α) (k k' : String) (v : α)
    (h : k' ≠ k) : mapInsert m k v k' = m k' := by
  simp [mapInsert, h]

theorem mapRemove_self {α : Type} (m : StrMap α) (k : String) :
    mapRemove m k k = none := by
  simp [mapRemove]

theorem mapRemove_other {α : Type} (m : StrMap α) (k k' : String)
    (h : k' ≠ k) : mapRemove m k k' = m k' := by
  simp [mapRemove, h]

/-! ### Claim C7: ACK frame round-trip -/

/-- C7: for every status s in [0, 255] and offset o in [0, 2^64),
pack_ack produces exactly 9 bytes, namely the 1-byte status followed by
the 8-byte little-endian offset, and unpack_ack inverts it:
unpack_ack (pack_ack s o) = (s, o). -/
theorem C7_ack_roundtrip (s o : Nat) (hs : s < 256) (ho : o < 2 ^ 64) :
    (pack_ack s o).length = 9 ∧
    pack_ack s o = s :: toLeBytes 8 o ∧
    unpack_ack (pack_ack s o) = some (s, o) := by
  refine ⟨by simp [pack_ack, toLeBytes_length], rfl, ?_⟩
  have hlen : (toLeBytes 8 o).length = 8 := toLeBytes_length 8 o
  unfold unpack_ack
  rw [if_neg (by simp [pack_ack, ACK_SIZE, hlen])]
  simp only [pack_ack, List.headD_cons, List.drop_succ_cons, List.drop_zero]
  rw [List.take_of_length_le (le_of_eq hlen), fromLeBytes_toLeBytes]
  have h256 : (256 : Nat) ^ 8 = 2 ^ 64 := by norm_num
  rw [h256, Nat.mod_eq_of_lt ho]

/-- Witness for C7 at s = 1, o = 7. -/
theorem C7_ack_roundtrip_witness :
    (1 : Nat) < 256 ∧ (7 : Nat) < 2 ^ 64 ∧
    unpack_ack (pack_ack 1 7) = some (1, 7) :=
  ⟨by norm_num, by norm_num, (C7_ack_roundtrip 1 7 (by norm_num) (by norm_num)).2.2⟩

/-! ### Claim C8: idempotence of acceptance resolution -/

/-- C8: the first resolve_request on a pending task removes the entry
(leaving other entries untouched) and forwards the decision on the stored
channel; a second call with the same task id, or any call for a task id
with no pending entry, returns the map unchanged and sends nothing. -/
theorem C8_resolve_request_idempotent (m : PendingMap) (task_id : String)
    (accept : Bool) (tx : Nat) (h : m task_id = some tx) :
    (resolve_request m task_id accept).1 task_id = none ∧
    (∀ k, k ≠ task_id → (resolve_request m task_id accept).1 k = m k) ∧
    (resolve_request m task_id accept).2 =
      some (tx, if accept then UserResponse.Accept else UserResponse.Decline) ∧
    (∀ accept' : Bool,
      resolve_request (resolve_request m task_id accept).1 task_id accept' =
        ((resolve_request m task_id accept).1, none)) ∧
    (∀ (m₀ : PendingMap) (accept' : Bool), m₀ task_id = none →
      resolve_request m₀ task_id accept' = (m₀, none)) := by
  refine ⟨?_, ?_, ?_, ?_, ?_⟩
  · simp [resolve_request, h, mapRemove]
  · intro k hk
    simp [resolve_request, h, mapRemove, hk]
  · simp [resolve_request, h]
  · intro accept'
    simp [resolve_request, h, mapRemove]
  · intro m₀ accept' h₀
    simp [resolve_request, h₀]

/-- Witness for C8 on the singleton pending map (task "t", channel 5). -/
theorem C8_resolve_request_idempotent_witness :
    (resolve_request (mapInsert emptyMap "t" 5) "t" true).2 =
      some (5, UserResponse.Accept) ∧
    (resolve_request (resolve_request (mapInsert emptyMap "t" 5) "t" true).1
        "t" false) =
      ((resolve_request (mapInsert emptyMap "t" 5) "t" true).1, none) :=
  ⟨(C8_resolve_request_idempotent (mapInsert emptyMap "t" 5) "t" true 5 rfl).2.2.1,
   (C8_resolve_request_idempotent (mapInsert emptyMap "t" 5) "t" true 5 rfl).2.2.2.1 false⟩

/-! ### Claim C1: TOFU certificate verification -/

/-- C1 counterexample: with a stored fingerprint "f0" for "peer" and a
callback that rejects, check_cert on fingerprint "f1" fails with the
certificate-rejected-by-user error, which is not the distinct
fingerprint-mismatch error the claim asserts for the Reject case. -/
theorem C1_counterexample :
    check_cert
      { known := mapInsert emptyMap "peer" "f0",
        callback := some fun _ _ => Except.ok CertificateAction.Reject }
      "peer" "f1" = Except.error TofuError.certRejectedByUser ∧
    TofuError.certRejectedByUser ≠ TofuError.fingerprintMismatch :=
  ⟨rfl, by decide⟩

/-- C1 (amended): for every store and peer, check_cert accepts with the
store unchanged when the stored fingerprint for P equals F; when no
fingerprint is stored it asks the registered callback (persisting F and
accepting on Accept, failing with a rejected-by-user error on Reject) and,
with no callback registered, silently persists F and accepts; when the
stored fingerprint differs from F it always consults the callback,
overwriting the stored fingerprint on Accept; on Reject it fails with a
certificate-rejected error, and only when no callback is registered does
it fail with the distinct fingerprint-mismatch error. -/
theorem C1_tofu_policy (known : KnownHosts) (cb : VerifyCallback)
    (peer_id fingerprint : String) :
    (known peer_id = some fingerprint → ∀ cbo : Option VerifyCallback,
      check_cert ⟨known, cbo⟩ peer_id fingerprint = Except.ok known) ∧
    (known peer_id = none →
      cb peer_id fingerprint = Except.ok CertificateAction.Accept →
      check_cert ⟨known, some cb⟩ peer_id fingerprint =
        Except.ok (save_known_host known peer_id fingerprint) ∧
      save_known_host known peer_id fingerprint peer_id = some fingerprint) ∧
    (known peer_id = none →
      cb peer_id fingerprint = Except.ok CertificateAction.Reject →
      check_cert ⟨known, some cb⟩ peer_id fingerprint =
        Except.error TofuError.rejectedByUser) ∧
    (known peer_id = none →
      check_cert ⟨known, none⟩ peer_id fingerprint =
        Except.ok (save_known_host known peer_id fingerprint) ∧
      save_known_host known peer_id fingerprint peer_id = some fingerprint) ∧
    (∀ g, known peer_id = some g → g ≠ fingerprint →
      cb peer_id fingerprint = Except.ok CertificateAction.Accept →
      check_cert ⟨known, some cb⟩ peer_id fingerprint =
        Except.ok (save_known_host known peer_id fingerprint) ∧
      save_known_host known peer_id fingerprint peer_id = some fingerprint) ∧
    (∀ g, known peer_id = some g → g ≠ fingerprint →
      cb peer_id fingerprint = Except.ok CertificateAction.Reject →
      check_cert ⟨known, some cb⟩ peer_id fingerprint =
        Except.error TofuError.certRejectedByUser) ∧
    (∀ g, known peer_id = some g → g ≠ fingerprint →
      check_cert ⟨known, none⟩ peer_id fingerprint =
        Except.error TofuError.fingerprintMismatch) := by
  refine ⟨?_, ?_, ?_, ?_, ?_, ?_, ?_⟩
  · intro h cbo
    simp [check_cert, h]
  · intro h hcb
    constructor
    · simp [check_cert, h, hcb]
    · simp [save_known_host, h, mapInsert_self]
  · intro h hcb
    simp [check_cert, h, hcb]
  · intro h
    constructor
    · simp [check_cert, h]
    · simp [save_known_host, h, mapInsert_self]
  · intro g h hne hcb
    constructor
    · simp [check_cert, h, hne, hcb]
    · simp [save_known_host, h, hne, mapInsert_self]
  · intro g h hne hcb
    simp [check_cert, h, hne, hcb]
  · intro g h hne
    simp [check_cert, h, hne]

/-- Witness for C1 on the empty store: silent first use persists and
accepts, and an equal stored fingerprint is accepted unchanged. -/
theorem C1_tofu_policy_witness :
    (check_cert ⟨emptyMap, none⟩ "p" "f" =
      Except.ok (save_known_host emptyMap "p" "f") ∧
      save_known_host emptyMap "p" "f" "p" = some "f") ∧
    check_cert ⟨mapInsert emptyMap "p" "f", none⟩ "p" "f" =
      Except.ok (mapInsert emptyMap "p" "f") :=
  ⟨(C1_tofu_policy emptyMap (fun _ _ => Except.ok CertificateAction.Accept)
      "p" "f").2.2.2.1 rfl,
   (C1_tofu_policy (mapInsert emptyMap "p" "f")
      (fun _ _ => Except.ok CertificateAction.Accept) "p" "f").1 rfl none⟩

/-! ### Claim C5: unique-path policy -/

/-- C5 counterexample: when the base name, the _1 variant and the
timestamped variant all exist at the moment of the call, get_unique_path
returns the timestamped path even though it existed, refuting the claim
that the returned path never existed at the moment of the call. -/
theorem C5_counterexample :
    get_unique_path
      (fun p => p == "d/a.txt" || p == "d/a_1.txt" || p == "d/a_42.txt")
      "d" "a.txt" 42 = "d/a_42.txt" ∧
    (fun p => p == "d/a.txt" || p == "d/a_1.txt" || p == "d/a_42.txt")
      "d/a_42.txt" = true := by
  constructor
  · rfl
  · rfl

/-- C5 (amended): for every file system, directory, raw filename and
timestamp, the filename is reduced to its final path component with
fallback "unknown_file" when none remains; the result is dir/name when
that path does not exist, else dir/stem_1.ext when that does not exist,
else dir/stem_nanos.ext with the nanosecond timestamp, the last returned
without an existence check; consequently a returned path that existed at
the moment of the call can only be the timestamped fallback. -/
theorem C5_unique_path (ex : FsState) (dir raw : String) (nanos : Nat) :
    (rustFileName raw = none → sanitizeFileName raw = "unknown_file") ∧
    (ex (pathJoin dir (sanitizeFileName raw)) = false →
      get_unique_path ex dir raw nanos = pathJoin dir (sanitizeFileName raw)) ∧
    (ex (pathJoin dir (sanitizeFileName raw)) = true →
      ex (pathJoin dir ((splitStemExt (sanitizeFileName raw)).1 ++ "_1" ++
          (splitStemExt (sanitizeFileName raw)).2)) = false →
      get_unique_path ex dir raw nanos =
        pathJoin dir ((splitStemExt (sanitizeFileName raw)).1 ++ "_1" ++
          (splitStemExt (sanitizeFileName raw)).2)) ∧
    (ex (pathJoin dir (sanitizeFileName raw)) = true →
      ex (pathJoin dir ((splitStemExt (sanitizeFileName raw)).1 ++ "_1" ++
          (splitStemExt (sanitizeFileName raw)).2)) = true →
      get_unique_path ex dir raw nanos =
        pathJoin dir ((splitStemExt (sanitizeFileName raw)).1 ++ "_" ++
          toString nanos ++ (splitStemExt (sanitizeFileName raw)).2)) ∧
    (ex (get_unique_path ex dir raw nanos) = true →
      get_unique_path ex dir raw nanos =
        pathJoin dir ((splitStemExt (sanitizeFileName raw)).1 ++ "_" ++
          toString nanos ++ (splitStemExt (sanitizeFileName raw)).2)) := by
  refine ⟨?_, ?_, ?_, ?_, ?_⟩
  · intro h
    simp [sanitizeFileName, h]
  · intro h
    simp [get_unique_path, h]
  · intro h1 h2
    simp [get_unique_path, h1, h2]
  · intro h1 h2
    simp [get_unique_path, h1, h2]
  · intro hex
    by_cases h1 : ex (pathJoin dir (sanitizeFileName raw)) = false
    · simp [get_unique_path, h1] at hex
    · by_cases h2 : ex (pathJoin dir ((splitStemExt (sanitizeFileName raw)).1 ++
          "_1" ++ (splitStemExt (sanitizeFileName raw)).2)) = false
      · simp [get_unique_path, h1, h2] at hex
      · simp [get_unique_path, h1, h2]

/-- Witness for C5: in an empty directory the base path is returned, and
when only the base exists the _1 variant is returned. -/
theorem C5_unique_path_witness :
    get_unique_path (fun _ => false) "d" "sub/a.txt" 0 = "d/a.txt" ∧
    get_unique_path (fun p => p == "d/a.txt") "d" "a.txt" 0 = "d/a_1.txt" :=
  ⟨(C5_unique_path (fun _ => false) "d" "sub/a.txt" 0).2.1 rfl,
   (C5_unique_path (fun p => p == "d/a.txt") "d" "a.txt" 0).2.2.1 rfl rfl⟩

/-! ### Claim C2: receiver commit atomicity -/

/-- C2 counterexample: a transfer whose pipeline succeeds but whose flush
fails propagates the error while the .part file remains in save_path,
refuting the claim that after every failed transfer no .part file remains. -/
theorem C2_counterexample :
    (handle_incoming ⟨true, none, 0, true, [], true, false, true, true⟩ "d"
      ⟨"a.txt", 3, "alice", "linux", none⟩ (fun s => s == "alice")
      (fun _ => false)).ok = false ∧
    (handle_incoming ⟨true, none, 0, true, [], true, false, true, true⟩ "d"
      ⟨"a.txt", 3, "alice", "linux", none⟩ (fun s => s == "alice")
      (fun _ => false)).fs "d/a.part" = true :=
  ⟨rfl, rfl⟩

/-- C2 (amended): for every inbound transfer that reaches the body phase,
on pipeline success followed by successful flush, fsync and rename the
receiver commits: the .part file is renamed to the final path and
on_complete fires with the final path; on pipeline failure the .part file
is deleted and the error propagated, so no .part file remains; but a
failure of flush, fsync or rename after a successful pipeline propagates
the error while leaving the .part file in place. -/
theorem C2_receiver_commit (env : IncomingEnv) (saveDir : String)
    (header : FileHeader) (wl : Whitelist) (fs : FsState)
    (evs0 : List HostEvent) (ins : List String) (ho : env.openOk = true) :
    let finalPath := get_unique_path fs saveDir header.filename env.nanos
    let tempPath := withExtension finalPath "part"
    let r := acceptedBody env saveDir header wl fs evs0 ins
    (env.pipelineOk = true → env.flushOk = true → env.syncOk = true →
      env.renameOk = true →
      r.ok = true ∧
      r.fs = fsRename (fsCreate fs tempPath) tempPath finalPath ∧
      HostEvent.onComplete header.filename finalPath ∈ r.events) ∧
    (env.pipelineOk = false →
      r.ok = false ∧ r.fs tempPath = false ∧
      ∀ t s, HostEvent.onComplete t s ∈ r.events →
        HostEvent.onComplete t s ∈ evs0) ∧
    (env.pipelineOk = true →
      (env.flushOk = false ∨ env.syncOk = false ∨ env.renameOk = false) →
      r.ok = false ∧ r.fs = fsCreate fs tempPath ∧ r.fs tempPath = true) := by
  intro finalPath tempPath r
  obtain ⟨p, d, n, o, pr, pl, fl, sy, re⟩ := env
  simp only at ho
  subst ho
  refine ⟨?_, ?_, ?_⟩
  · intro h1 h2 h3 h4
    simp only at h1 h2 h3 h4
    subst h1; subst h2; subst h3; subst h4
    refine ⟨rfl, rfl, ?_⟩
    simp [r, acceptedBody]
  · intro h1
    simp only at h1
    subst h1
    refine ⟨rfl, ?_, ?_⟩
    · simp [r, acceptedBody, fsRemove]
    · intro t s hmem
      have hmem' : HostEvent.onComplete t s ∈
          evs0 ++ pr.map fun ct => HostEvent.onProgress header.filename ct.1 ct.2 :=
        hmem
      rcases List.mem_append.mp hmem' with h | h
      · exact h
      · rcases List.mem_map.mp h with ⟨ct, _, hct⟩
        exact HostEvent.noConfusion hct
  · intro h1 h2
    simp only at h1 h2
    subst h1
    cases fl <;> cases sy <;> cases re <;>
      first
        | (rcases h2 with h | h | h <;> exact Bool.noConfusion h)
        | (refine ⟨rfl, rfl, ?_⟩
           show fsCreate fs tempPath tempPath = true
           simp [fsCreate])

/-- Witness for C2: a fully successful body phase reports Ok, and a body
phase whose pipeline fails leaves no .part file. -/
theorem C2_receiver_commit_witness :
    (acceptedBody ⟨true, none, 0, true, [], true, true, true, true⟩ "d"
        ⟨"a.txt", 3, "alice", "linux", none⟩ (fun _ => true) (fun _ => false)
        [] []).ok = true ∧
    (acceptedBody ⟨true, none, 0, true, [], false, true, true, true⟩ "d"
        ⟨"a.txt", 3, "alice", "linux", none⟩ (fun _ => true) (fun _ => false)
        [] []).fs "d/a.part" = false :=
  ⟨((C2_receiver_commit ⟨true, none, 0, true, [], true, true, true, true⟩ "d"
      ⟨"a.txt", 3, "alice", "linux", none⟩ (fun _ => true) (fun _ => false)
      [] [] rfl).1 rfl rfl rfl rfl).1,
   ((C2_receiver_commit ⟨true, none, 0, true, [], false, true, true, true⟩ "d"
      ⟨"a.txt", 3, "alice", "linux", none⟩ (fun _ => true) (fun _ => false)
      [] [] rfl).2.1 rfl).2.1⟩

/-! ### Claim C3: peer-table transition on MdnsFound -/

/-- C3 counterexample: a Hybrid peer receiving an MdnsFound event is set
to Lan by the event loop, refuting the claim that a Hybrid peer keeps its
current transport kind. -/
theorem C3_counterexample :
    (((applyMutation
        (mapInsert emptyMap "p"
          { id := "p", name := "n", display_name := "n", ip := some "10.0.0.2",
            port := 4, ssid := none, ble_mac := some "aa:bb",
            transport := TransportType.Hybrid, last_seen := 0, missed_pings := 0 })
        (TableMutation.mdnsFound "p" "n" "10.0.0.2" 4) 5).1 "p").map
          PeerInfo.transport = some TransportType.Lan) ∧
    TransportType.Lan ≠ TransportType.Hybrid :=
  ⟨rfl, by decide⟩

/-- C3 (amended): on an MdnsFound event, an absent peer is inserted as a
fresh Lan record, a BleOnly peer transitions to Hybrid, and any other peer
(Lan or Hybrid) ends up Lan — so a Lan peer keeps its kind but a Hybrid
peer is reset to Lan; in all cases missed_pings is reset to 0, last_seen
is refreshed, the address is stored, and the host is notified via exactly
one on_peer_found. -/
theorem C3_mdns_found (tbl : PeerTable) (id name ip : String) (port now : Nat) :
    let r := applyMutation tbl (TableMutation.mdnsFound id name ip port) now
    (tbl id = none → r.1 id = some (freshLanPeer id name ip port now)) ∧
    (∀ p, tbl id = some p → p.transport = TransportType.BleOnly →
      (r.1 id).map PeerInfo.transport = some TransportType.Hybrid) ∧
    (∀ p, tbl id = some p → p.transport ≠ TransportType.BleOnly →
      (r.1 id).map PeerInfo.transport = some TransportType.Lan) ∧
    (∀ p', r.1 id = some p' →
      p'.missed_pings = 0 ∧ p'.last_seen = now ∧ p'.ip = some ip) ∧
    (∃ n2 ssid tr, r.2 = [HostEvent.onPeerFound id n2 ip port ssid tr]) := by
  intro r
  refine ⟨?_, ?_, ?_, ?_, ?_⟩
  · intro h
    simp [r, applyMutation, h, mapInsert_self]
  · intro p hp hble
    simp [r, applyMutation, hp, hble, mapInsert_self]
  · intro p hp hne
    simp [r, applyMutation, hp, hne, mapInsert_self]
  · intro p' hp'
    rcases h : tbl id with _ | peer
    · simp only [r, applyMutation, h, mapInsert_self, Option.some.injEq] at hp'
      subst hp'
      simp [freshLanPeer]
    · simp only [r, applyMutation, h, mapInsert_self, Option.some.injEq] at hp'
      subst hp'
      simp
  · rcases h : tbl id with _ | peer
    · simp [r, applyMutation, h]
    · simp [r, applyMutation, h]

/-- Witness for C3: a peer absent from the empty table is inserted as the
fresh Lan record. -/
theorem C3_mdns_found_witness :
    (applyMutation emptyMap (TableMutation.mdnsFound "p" "n" "1.2.3.4" 7) 9).1 "p" =
      some (freshLanPeer "p" "n" "1.2.3.4" 7 9) :=
  (C3_mdns_found emptyMap "p" "n" "1.2.3.4" 7 9).1 rfl

/-! ### Claim C4: peer-record invariant -/

theorem peerStrongInv_freshLan (id name ip : String) (port now : Nat) :
    peerStrongInv (freshLanPeer id name ip port now) := by
  simp [peerStrongInv, peerInv, freshLanPeer]

theorem peerStrongInv_freshBle (id name : String) (ssid : Option String)
    (mac : String) (now : Nat) :
    peerStrongInv (freshBlePeer id name ssid mac now) := by
  simp [peerStrongInv, peerInv, freshBlePeer]

theorem applyMutation_preserves (tbl : PeerTable) (m : TableMutation) (now : Nat)
    (h : tableStrongInv tbl) : tableStrongInv (applyMutation tbl m now).1 := by
  intro id' p' hp'
  cases m with
  | mdnsFound pid pname pip pport =>
    rcases htbl : tbl pid with _ | peer
    · simp only [applyMutation, htbl] at hp'
      by_cases hidd : id' = pid
      · subst hidd
        rw [mapInsert_self] at hp'
        injection hp' with hq
        subst hq
        exact peerStrongInv_freshLan _ _ _ _ _
      · rw [mapInsert_other _ _ _ _ hidd] at hp'
        exact h id' p' hp'
    · simp only [applyMutation, htbl] at hp'
      by_cases hidd : id' = pid
      · subst hidd
        rw [mapInsert_self] at hp'
        injection hp' with hq
        subst hq
        have hpeer := h id' peer htbl
        by_cases hb : peer.transport = TransportType.BleOnly
        · have hmac : peer.ble_mac ≠ none := (hpeer.1.1.mp hb).2
          simp [peerStrongInv, peerInv, hb, hmac]
        · simp [peerStrongInv, peerInv, hb]
      · rw [mapInsert_other _ _ _ _ hidd] at hp'
        exact h id' p' hp'
  | bleFound bid bname bssid bmac =>
    rcases htbl : tbl bid with _ | peer
    · simp only [applyMutation, htbl] at hp'
      by_cases hidd : id' = bid
      · subst hidd
        rw [mapInsert_self] at hp'
        injection hp' with hq
        subst hq
        exact peerStrongInv_freshBle _ _ _ _ _
      · rw [mapInsert_other _ _ _ _ hidd] at hp'
        exact h id' p' hp'
    · simp only [applyMutation, htbl] at hp'
      by_cases hidd : id' = bid
      · subst hidd
        rw [mapInsert_self] at hp'
        injection hp' with hq
        subst hq
        have hpeer := h id' peer htbl
        rcases hb : peer.transport with _ | _ | _
        · have hip : peer.ip ≠ none := hpeer.2 hb
          simp [peerStrongInv, peerInv, hb, hip]
        · have hip : peer.ip = none := (hpeer.1.1.mp hb).1
          simp [peerStrongInv, peerInv, hb, hip]
        · have hip : peer.ip ≠ none := (hpeer.1.2 hb).1
          simp [peerStrongInv, peerInv, hb, hip]
      · rw [mapInsert_other _ _ _ _ hidd] at hp'
        exact h id' p' hp'
  | mdnsLost lid =>
    rcases htbl : tbl lid with _ | peer
    · simp only [applyMutation, htbl] at hp'
      exact h id' p' hp'
    · by_cases hb : peer.transport = TransportType.Hybrid
      · simp only [applyMutation, htbl, hb, if_true, if_pos] at hp'
        by_cases hidd : id' = lid
        · subst hidd
          rw [mapInsert_self] at hp'
          injection hp' with hq
          subst hq
          have hpeer := h id' peer htbl
          have hmac : peer.ble_mac ≠ none := (hpeer.1.2 hb).2
          simp [peerStrongInv, peerInv, hmac]
        · rw [mapInsert_other _ _ _ _ hidd] at hp'
          exact h id' p' hp'
      · simp only [applyMutation, htbl] at hp'
        rw [if_neg hb] at hp'
        dsimp only at hp'
        by_cases hidd : id' = lid
        · subst hidd
          rw [mapRemove_self] at hp'
          exact Option.noConfusion hp'
        · rw [mapRemove_other _ _ _ hidd] at hp'
          exact h id' p' hp'
  | probeResult qid alive =>
    rcases htbl : tbl qid with _ | peer
    · simp only [applyMutation, htbl] at hp'
      exact h id' p' hp'
    · have hpeer := h qid peer htbl
      cases alive with
      | true =>
        simp only [applyMutation, htbl] at hp'
        rw [if_true] at hp'
        dsimp only at hp'
        by_cases hidd : id' = qid
        · subst hidd
          rw [mapInsert_self] at hp'
          injection hp' with hq
          subst hq
          rcases hpeer with ⟨⟨hiff, hhyb⟩, hlan⟩
          exact ⟨⟨by simpa using hiff, by simpa using hhyb⟩, by simpa using hlan⟩
        · rw [mapInsert_other _ _ _ _ hidd] at hp'
          exact h id' p' hp'
      | false =>
        simp only [applyMutation, htbl] at hp'
        rw [if_neg (by decide : ¬(false = true))] at hp'
        by_cases hm : 3 ≤ peer.missed_pings + 1
        · rw [if_pos ?hc] at hp'
          case hc => simpa using hm
          by_cases hb : peer.transport = TransportType.Hybrid
          · rw [if_pos ?hb2] at hp'
            case hb2 => simpa using hb
            dsimp only at hp'
            by_cases hidd : id' = qid
            · subst hidd
              rw [mapInsert_self] at hp'
              injection hp' with hq
              subst hq
              have hmac : peer.ble_mac ≠ none := (hpeer.1.2 hb).2
              simp [peerStrongInv, peerInv, hmac]
            · rw [mapInsert_other _ _ _ _ hidd] at hp'
              exact h id' p' hp'
          · rw [if_neg ?hb3] at hp'
            case hb3 => simpa using hb
            by_cases hl : peer.transport = TransportType.Lan
            · rw [if_pos ?hl2] at hp'
              case hl2 => simpa using hl
              dsimp only at hp'
              by_cases hidd : id' = qid
              · subst hidd
                rw [mapRemove_self] at hp'
                exact Option.noConfusion hp'
              · rw [mapRemove_other _ _ _ hidd] at hp'
                exact h id' p' hp'
            · rw [if_neg ?hl3] at hp'
              case hl3 => simpa using hl
              dsimp only at hp'
              by_cases hidd : id' = qid
              · subst hidd
                rw [mapInsert_self] at hp'
                injection hp' with hq
                subst hq
                rcases hpeer with ⟨⟨hiff, hhyb⟩, hlan⟩
                exact ⟨⟨by simpa using hiff, by simpa using hhyb⟩, by simpa using hlan⟩
              · rw [mapInsert_other _ _ _ _ hidd] at hp'
                exact h id' p' hp'
        · rw [if_neg ?hc2] at hp'
          case hc2 => simpa using hm
          dsimp only at hp'
          by_cases hidd : id' = qid
          · subst hidd
            rw [mapInsert_self] at hp'
            injection hp' with hq
            subst hq
            rcases hpeer with ⟨⟨hiff, hhyb⟩, hlan⟩
            exact ⟨⟨by simpa using hiff, by simpa using hhyb⟩, by simpa using hlan⟩
          · rw [mapInsert_other _ _ _ _ hidd] at hp'
            exact h id' p' hp'

theorem runMutations_preserves (ms : List (TableMutation × Nat)) :
    ∀ tbl : PeerTable, tableStrongInv tbl → tableStrongInv (runMutations tbl ms) := by
  induction ms with
  | nil => intro tbl h; exact h
  | cons mn rest ih =>
    intro tbl h
    exact ih _ (applyMutation_preserves tbl mn.1 mn.2 h)

theorem tableStrongInv_empty : tableStrongInv emptyMap := by
  intro id p hp
  exact Option.noConfusion hp

/-- C4: every peer table reachable from the empty table through the
peer-table mutations (MdnsFound, BleFound, MdnsLost handling and
health-probe outcomes) satisfies the peer-record invariant: a peer is
BleOnly exactly when it has no ip and has a ble_mac, and a Hybrid peer
has both an ip and a ble_mac. -/
theorem C4_peer_invariant (ms : List (TableMutation × Nat)) :
    tableInv (runMutations emptyMap ms) := by
  intro id p hp
  exact (runMutations_preserves ms emptyMap tableStrongInv_empty id p hp).1

/-- Witness for C4: the table after one BleFound on the empty table
satisfies the invariant at the inserted record. -/
theorem C4_peer_invariant_witness :
    peerInv (freshBlePeer "b" "n" none "aa" 0) :=
  C4_peer_invariant [(TableMutation.bleFound "b" "n" none "aa", 0)] "b"
    (freshBlePeer "b" "n" none "aa" 0) rfl

/-! ### Claim C6: copy_pipeline progress notification -/

theorem getLastD_cons_eq {α : Type} (a x : α) (xs : List α) :
    (x :: xs).getLastD a = xs.getLastD x := by
  cases xs <;> rfl

theorem getLastD_concat_eq {α : Type} (a e : α) (l : List α) :
    (l ++ [e]).getLastD a = e := by
  induction l generalizing a with
  | nil => rfl
  | cons x xs ih =>
    rw [List.cons_append, getLastD_cons_eq]
    exact ih x

theorem getLast?_concat_eq {α : Type} (e : α) (l : List α) :
    (l ++ [e]).getLast? = some e := by
  induction l with
  | nil => rfl
  | cons x xs ih =>
    cases xs with
    | nil => rfl
    | cons y ys =>
      simpa [List.getLast?_cons_cons] using ih

theorem chainFrom_append (total : Nat) (l : List (Nat × Nat)) :
    ∀ (a e : Nat × Nat), chainFrom total a l →
      ((1024 * 1024 ≤ e.1 - (l.getLastD a).1 ∧
        NOTIFY_INTERVAL_MS < e.2 - (l.getLastD a).2) ∨ e.1 = total) →
      chainFrom total a (l ++ [e]) := by
  induction l with
  | nil =>
    intro a e _ he
    exact ⟨by simpa using he, trivial⟩
  | cons x xs ih =>
    intro a e hc he
    rw [getLastD_cons_eq] at he
    exact ⟨hc.1, ih x e hc.2 he⟩

theorem pipelineStep_stInv (total t0 : Nat) (st : PipelineState) (c : Nat × Nat)
    (h : stInv total t0 st) : stInv total t0 (pipelineStep total st c) := by
  unfold pipelineStep
  by_cases hc : (1024 * 1024 ≤ st.uploaded + c.1 - st.last_rep ∧
      NOTIFY_INTERVAL_MS < c.2 - st.last_time) ∨ st.uploaded + c.1 = total
  · rw [if_pos hc]
    constructor
    · apply chainFrom_append total _ (0, t0) (st.uploaded + c.1, c.2) h.1
      rw [h.2]
      exact hc
    · exact getLastD_concat_eq _ _ _
  · rw [if_neg hc]
    exact ⟨h.1, h.2⟩

theorem foldl_stInv (total t0 : Nat) (chunks : List (Nat × Nat)) :
    ∀ st : PipelineState, stInv total t0 st →
      stInv total t0 (chunks.foldl (pipelineStep total) st) := by
  induction chunks with
  | nil => intro st h; exact h
  | cons c rest ih =>
    intro st h
    exact ih _ (pipelineStep_stInv total t0 st c h)

theorem stInv_init (total t0 : Nat) : stInv total t0 ⟨0, 0, t0, []⟩ :=
  ⟨trivial, rfl⟩

theorem pipelineStep_uploaded (total : Nat) (st : PipelineState) (c : Nat × Nat) :
    (pipelineStep total st c).uploaded = st.uploaded + c.1 := by
  unfold pipelineStep
  split <;> rfl

theorem pipeline_terminal (total : Nat) (chunks : List (Nat × Nat)) :
    ∀ st : PipelineState, chunks ≠ [] → (∀ c ∈ chunks, 0 < c.1) →
      st.uploaded + sumLens chunks = total →
      ∃ u, ((chunks.foldl (pipelineStep total) st).reports).getLast? =
        some (total, u) := by
  induction chunks with
  | nil =>
    intro st hne _ _
    exact absurd rfl hne
  | cons c rest ih =>
    intro st _ hpos hsum
    by_cases hrest : rest = []
    · subst hrest
      have hu : st.uploaded + c.1 = total := by
        simpa [sumLens] using hsum
      refine ⟨c.2, ?_⟩
      simp only [List.foldl]
      unfold pipelineStep
      rw [if_pos (Or.inr hu)]
      simp only [hu]
      exact getLast?_concat_eq _ _
    · have hsum' : (pipelineStep total st c).uploaded + sumLens rest = total := by
        rw [pipelineStep_uploaded]
        have : sumLens (c :: rest) = c.1 + sumLens rest := by simp [sumLens]
        omega
      exact ih (pipelineStep total st c) hrest
        (fun x hx => hpos x (List.mem_cons_of_mem _ hx)) hsum'

/-- C6 counterexample: with total = 0 and an empty stream the consumer loop
never runs, so no on_progress call is made at all although the final
current equals total; this refutes the claim that a terminal notification
is also emitted in the total = 0 case. -/
theorem C6_counterexample :
    copy_pipeline_reports 0 0 [] = [] ∧
    ∀ u : Nat, (0, u) ∉ copy_pipeline_reports 0 0 [] :=
  ⟨rfl, fun _ h => List.not_mem_nil _ h⟩

/-- C6 (amended): every on_progress call of copy_pipeline either shows at
least 1 MiB of progress and strictly more than 100 ms elapsed since the
previous call, or is the terminal call with current equal to total; and
whenever the delivered chunks are nonempty with positive sizes and sum
exactly to a positive total, the last call is the terminal call
(total, total); with total = 0 and an empty stream no call is made. -/
theorem C6_progress_notification (total t0 : Nat) (chunks : List (Nat × Nat)) :
    chainFrom total (0, t0) (copy_pipeline_reports total t0 chunks) ∧
    (sumLens chunks = total → 0 < total → (∀ c ∈ chunks, 0 < c.1) →
      ∃ u, (copy_pipeline_reports total t0 chunks).getLast? = some (total, u)) := by
  constructor
  · exact (foldl_stInv total t0 chunks _ (stInv_init total t0)).1
  · intro hsum htotal hpos
    have hne : chunks ≠ [] := by
      intro hnil
      subst hnil
      simp [sumLens] at hsum
      omega
    exact pipeline_terminal total chunks ⟨0, 0, t0, []⟩ hne hpos (by simpa using hsum)

/-- Witness for C6: two 1 MiB chunks summing to a 2 MiB total end with the
terminal notification. -/
theorem C6_progress_notification_witness :
    ∃ u, (copy_pipeline_reports 2097152 0
      [(1048576, 0), (1048576, 50)]).getLast? = some (2097152, u) :=
  (C6_progress_notification 2097152 0 [(1048576, 0), (1048576, 50)]).2
    rfl (by norm_num) (by decide)

/-! ### Shared lemmas about the accepted body phase -/

theorem acceptedBody_fixed (env : IncomingEnv) (saveDir : String)
    (header : FileHeader) (wl : Whitelist) (fs : FsState)
    (evs0 : List HostEvent) (ins : List String) :
    (acceptedBody env saveDir header wl fs evs0 ins).taskId = header.filename ∧
    (acceptedBody env saveDir header wl fs evs0 ins).whitelist = wl ∧
    (acceptedBody env saveDir header wl fs evs0 ins).insertedKeys = ins := by
  obtain ⟨p, d, n, o, pr, pl, fl, sy, re⟩ := env
  cases o <;> cases pl <;> cases fl <;> cases sy <;> cases re <;>
    exact ⟨rfl, rfl, rfl⟩

theorem acceptedBody_acks (env : IncomingEnv) (saveDir : String)
    (header : FileHeader) (wl : Whitelist) (fs : FsState)
    (evs0 : List HostEvent) (ins : List String) (ho : env.openOk = true) :
    (acceptedBody env saveDir header wl fs evs0 ins).acks = [(1, 0)] := by
  obtain ⟨p, d, n, o, pr, pl, fl, sy, re⟩ := env
  simp only at ho
  subst ho
  cases pl <;> cases fl <;> cases sy <;> cases re <;> rfl

theorem acceptedBody_events_eq (env : IncomingEnv) (saveDir : String)
    (header : FileHeader) (wl : Whitelist) (fs : FsState)
    (evs0 : List HostEvent) (ins : List String) :
    (acceptedBody env saveDir header wl fs evs0 ins).events = evs0 ∨
    (acceptedBody env saveDir header wl fs evs0 ins).events =
      evs0 ++ env.progress.map
        (fun ct => HostEvent.onProgress header.filename ct.1 ct.2) ∨
    (acceptedBody env saveDir header wl fs evs0 ins).events =
      (evs0 ++ env.progress.map
        (fun ct => HostEvent.onProgress header.filename ct.1 ct.2)) ++
        [HostEvent.onComplete header.filename
          (get_unique_path fs saveDir header.filename env.nanos)] := by
  obtain ⟨p, d, n, o, pr, pl, fl, sy, re⟩ := env
  cases o <;> cases pl <;> cases fl <;> cases sy <;> cases re <;>
    first
      | exact Or.inl rfl
      | exact Or.inr (Or.inl rfl)
      | exact Or.inr (Or.inr rfl)

theorem acceptedBody_events_taskId (env : IncomingEnv) (saveDir : String)
    (header : FileHeader) (wl : Whitelist) (fs : FsState)
    (evs0 : List HostEvent) (ins : List String)
    (h0 : ∀ ev ∈ evs0, HostEvent.taskId ev = some header.filename) :
    ∀ ev ∈ (acceptedBody env saveDir header wl fs evs0 ins).events,
      HostEvent.taskId ev = some header.filename := by
  intro ev hev
  rcases acceptedBody_events_eq env saveDir header wl fs evs0 ins with he | he | he <;>
    rw [he] at hev
  · exact h0 ev hev
  · rcases List.mem_append.mp hev with h | h
    · exact h0 ev h
    · rcases List.mem_map.mp h with ⟨ct, _, rfl⟩
      rfl
  · rcases List.mem_append.mp hev with h | h
    · rcases List.mem_append.mp h with h2 | h2
      · exact h0 ev h2
      · rcases List.mem_map.mp h2 with ⟨ct, _, rfl⟩
        rfl
    · rcases List.mem_singleton.mp h with rfl
      rfl

theorem acceptedBody_mem_evs0 (env : IncomingEnv) (saveDir : String)
    (header : FileHeader) (wl : Whitelist) (fs : FsState)
    (evs0 : List HostEvent) (ins : List String) :
    ∀ ev ∈ evs0, ev ∈ (acceptedBody env saveDir header wl fs evs0 ins).events := by
  intro ev hev
  rcases acceptedBody_events_eq env saveDir header wl fs evs0 ins with he | he | he <;>
    rw [he]
  · exact hev
  · exact List.mem_append_left _ hev
  · exact List.mem_append_left _ (List.mem_append_left _ hev)

theorem acceptedBody_no_incoming (env : IncomingEnv) (saveDir : String)
    (header : FileHeader) (wl : Whitelist) (fs : FsState)
    (evs0 : List HostEvent) (ins : List String)
    (h0 : ∀ t f sz sn sd, HostEvent.incoming t f sz sn sd ∉ evs0) :
    ∀ t f sz sn sd, HostEvent.incoming t f sz sn sd ∉
      (acceptedBody env saveDir header wl fs evs0 ins).events := by
  intro t f sz sn sd hmem
  rcases acceptedBody_events_eq env saveDir header wl fs evs0 ins with he | he | he <;>
    rw [he] at hmem
  · exact h0 t f sz sn sd hmem
  · rcases List.mem_append.mp hmem with h | h
    · exact h0 t f sz sn sd h
    · rcases List.mem_map.mp h with ⟨ct, _, hct⟩
      exact HostEvent.noConfusion hct
  · rcases List.mem_append.mp hmem with h | h
    · rcases List.mem_append.mp h with h2 | h2
      · exact h0 t f sz sn sd h2
      · rcases List.mem_map.mp h2 with ⟨ct, _, hct⟩
        exact HostEvent.noConfusion hct
    · exact HostEvent.noConfusion (List.mem_singleton.mp h)

theorem is_trusted_add_trust (wl : Whitelist) (s : String) :
    is_trusted (add_trust wl s) s = true := by
  by_cases h : wl s <;> simp [is_trusted, add_trust, h]

/-! ### Claim C9: task id equals the header filename -/

/-- C9: for every inbound transfer, the task id used by handle_incoming is
the unsanitised filename field of the received FileHeader; every event it
emits is tagged with that task id, every key it inserts into the
pending-acceptance map equals it, and inserting under the same filename a
second time replaces the earlier channel. -/
theorem C9_task_id (env : IncomingEnv) (saveDir : String) (header : FileHeader)
    (wl : Whitelist) (fs : FsState) :
    (handle_incoming env saveDir header wl fs).taskId = header.filename ∧
    (∀ ev ∈ (handle_incoming env saveDir header wl fs).events,
      HostEvent.taskId ev = some header.filename) ∧
    (∀ k ∈ (handle_incoming env saveDir header wl fs).insertedKeys,
      k = header.filename) ∧
    (∀ (m : PendingMap) (tx tx' : Nat) (header' : FileHeader),
      header'.filename = header.filename →
      mapInsert (mapInsert m header.filename tx) header'.filename tx'
        header.filename = some tx') := by
  have hmap : ∀ (m : PendingMap) (tx tx' : Nat) (header' : FileHeader),
      header'.filename = header.filename →
      mapInsert (mapInsert m header.filename tx) header'.filename tx'
        header.filename = some tx' := by
    intro m tx tx' header' hfn
    rw [hfn]
    exact mapInsert_self _ _ _
  by_cases hp : env.permitOk = false
  · have heq : handle_incoming env saveDir header wl fs =
        { taskId := header.filename,
          events := [HostEvent.onReject header.filename "System Busy"],
          acks := [(0, 0)], whitelist := wl, fs := fs,
          insertedKeys := [], ok := true } := by
      simp [handle_incoming, hp]
    refine ⟨by rw [heq], ?_, ?_, hmap⟩
    · intro ev hev
      rw [heq] at hev
      rcases List.mem_singleton.mp hev with rfl
      rfl
    · intro k hk
      rw [heq] at hk
      exact absurd hk (List.not_mem_nil k)
  · by_cases ht : is_trusted wl header.sender_name = true
    · have heq : handle_incoming env saveDir header wl fs =
          acceptedBody env saveDir header wl fs
            [HostEvent.onStart header.filename header.filename] [] := by
        simp [handle_incoming, hp, ht]
      refine ⟨?_, ?_, ?_, hmap⟩
      · rw [heq]
        exact (acceptedBody_fixed env saveDir header wl fs _ _).1
      · intro ev hev
        rw [heq] at hev
        refine acceptedBody_events_taskId env saveDir header wl fs _ _ ?_ ev hev
        intro e he
        rcases List.mem_singleton.mp he with rfl
        rfl
      · intro k hk
        rw [heq, (acceptedBody_fixed env saveDir header wl fs _ _).2.2] at hk
        exact absurd hk (List.not_mem_nil k)
    · by_cases hd : env.decision = some UserResponse.Accept
      · have heq : handle_incoming env saveDir header wl fs =
            acceptedBody env saveDir header (add_trust wl header.sender_name) fs
              [HostEvent.incoming header.filename header.filename
                header.filesize header.sender_name header.sender_device]
              [header.filename] := by
          simp [handle_incoming, hp, ht, hd]
        refine ⟨?_, ?_, ?_, hmap⟩
        · rw [heq]
          exact (acceptedBody_fixed env saveDir header _ fs _ _).1
        · intro ev hev
          rw [heq] at hev
          refine acceptedBody_events_taskId env saveDir header _ fs _ _ ?_ ev hev
          intro e he
          rcases List.mem_singleton.mp he with rfl
          rfl
        · intro k hk
          rw [heq, (acceptedBody_fixed env saveDir header _ fs _ _).2.2] at hk
          exact List.mem_singleton.mp hk
      · have heq : handle_incoming env saveDir header wl fs =
            { taskId := header.filename,
              events := [HostEvent.incoming header.filename header.filename
                header.filesize header.sender_name header.sender_device,
                HostEvent.onReject header.filename "User Rejected"],
              acks := [(0, 0)], whitelist := wl, fs := fs,
              insertedKeys := [header.filename], ok := true } := by
          simp [handle_incoming, hp, ht, hd]
        refine ⟨by rw [heq], ?_, ?_, hmap⟩
        · intro ev hev
          rw [heq] at hev
          rcases List.mem_cons.mp hev with rfl | hev
          · rfl
          · rcases List.mem_singleton.mp hev with rfl
            rfl
        · intro k hk
          rw [heq] at hk
          exact List.mem_singleton.mp hk

/-- Witness for C9: a trusted transfer of header filename "a.txt" emits
only events tagged "a.txt". -/
theorem C9_task_id_witness :
    HostEvent.taskId (HostEvent.onStart "a.txt" "a.txt") = some "a.txt" :=
  (C9_task_id ⟨true, none, 0, true, [], true, true, true, true⟩ "d"
      ⟨"a.txt", 3, "alice", "linux", none⟩ (fun s => s == "alice")
      (fun _ => false)).2.1
    (HostEvent.onStart "a.txt" "a.txt") (by decide)

/-! ### Claim C10: whitelist promotion on first acceptance -/

/-- C10: when a sender not in the whitelist is accepted through
resolve_request, handle_incoming adds the sender name to the whitelist (at
decision time, before the ACK(1,0) write of the body phase) and the run's
only ACK is (1,0); every subsequent transfer from that sender name against
the resulting whitelist is auto-accepted: it runs the accepted body
directly with an on_start event, emits no Incoming event and inserts
nothing into the pending map. -/
theorem C10_whitelist_promotion (env : IncomingEnv) (saveDir : String)
    (header : FileHeader) (wl : Whitelist) (fs : FsState)
    (hperm : env.permitOk = true)
    (huntrusted : is_trusted wl header.sender_name = false)
    (hdec : env.decision = some UserResponse.Accept)
    (hopen : env.openOk = true) :
    let r := handle_incoming env saveDir header wl fs
    is_trusted r.whitelist header.sender_name = true ∧
    r.acks = [(1, 0)] ∧
    (∀ (env' : IncomingEnv) (saveDir' : String) (fs' : FsState)
        (header' : FileHeader), header'.sender_name = header.sender_name →
      env'.permitOk = true →
      (handle_incoming env' saveDir' header' r.whitelist fs').insertedKeys = [] ∧
      (∀ t f sz sn sd, HostEvent.incoming t f sz sn sd ∉
        (handle_incoming env' saveDir' header' r.whitelist fs').events) ∧
      HostEvent.onStart header'.filename header'.filename ∈
        (handle_incoming env' saveDir' header' r.whitelist fs').events) := by
  intro r
  have hp : ¬(env.permitOk = false) := by rw [hperm]; exact (by decide)
  have ht : ¬(is_trusted wl header.sender_name = true) := by
    rw [huntrusted]; exact (by decide)
  have hr : r = acceptedBody env saveDir header
      (add_trust wl header.sender_name) fs
      [HostEvent.incoming header.filename header.filename header.filesize
        header.sender_name header.sender_device] [header.filename] := by
    simp [r, handle_incoming, hp, ht, hdec]
  have hwl : r.whitelist = add_trust wl header.sender_name := by
    rw [hr]; exact (acceptedBody_fixed env saveDir header _ fs _ _).2.1
  have h1 : is_trusted r.whitelist header.sender_name = true := by
    rw [hwl]; exact is_trusted_add_trust wl header.sender_name
  refine ⟨h1, ?_, ?_⟩
  · rw [hr]; exact acceptedBody_acks env saveDir header _ fs _ _ hopen
  · intro env' saveDir' fs' header' hsn hperm'
    have hp' : ¬(env'.permitOk = false) := by rw [hperm']; exact (by decide)
    have ht' : is_trusted r.whitelist header'.sender_name = true := by
      rw [hsn]; exact h1
    have hr' : handle_incoming env' saveDir' header' r.whitelist fs' =
        acceptedBody env' saveDir' header' r.whitelist fs'
          [HostEvent.onStart header'.filename header'.filename] [] := by
      simp [handle_incoming, hp', ht']
    refine ⟨?_, ?_, ?_⟩
    · rw [hr']
      exact (acceptedBody_fixed env' saveDir' header' _ fs' _ _).2.2
    · rw [hr']
      refine acceptedBody_no_incoming env' saveDir' header' _ fs' _ _ ?_
      intro t f sz sn sd hmem
      exact HostEvent.noConfusion (List.mem_singleton.mp hmem)
    · rw [hr']
      exact acceptedBody_mem_evs0 env' saveDir' header' _ fs' _ _
        (HostEvent.onStart header'.filename header'.filename)
        (List.mem_singleton.mpr rfl)

/-- Witness for C10: accepting the untrusted sender "alice" puts "alice"
on the whitelist. -/
theorem C10_whitelist_promotion_witness :
    is_trusted (handle_incoming
      ⟨true, some UserResponse.Accept, 0, true, [], true, true, true, true⟩ "d"
      ⟨"a.txt", 3, "alice", "linux", none⟩ (fun _ => false)
      (fun _ => false)).whitelist "alice" = true :=
  (C10_whitelist_promotion
      ⟨true, some UserResponse.Accept, 0, true, [], true, true, true, true⟩ "d"
      ⟨"a.txt", 3, "alice", "linux", none⟩ (fun _ => false) (fun _ => false)
      rfl rfl rfl rfl).1

end DropTea
